import Mathlib

/-!
Verification of the batching/unbatching bookkeeping of the two TorchServe
request handlers (`TextEmbeddingModelHandler` in
`handler_dense/text_embedding_handler.py` and `SparseEncodingModelHandler`
in `handler_dense/xinyuan_handler.py`).

The handlers' own logic is pure bookkeeping around external calls:
`preprocess` decodes each request body (a UTF-8 byte buffer holding JSON, a
plain string, or an already-decoded list), flattens the bodies into one text
batch while recording per-request group sizes (`batch_idx`), and
`postprocess` slices the flat batch of output vectors back into per-request
groups.  We embed the Python values the handlers inspect (`PyVal`), the
UTF-8 decoding performed by `bytearray.decode('utf-8')`, the JSON
decoding/encoding performed by `json.loads`/`json.dumps`, and the handler
methods themselves, and prove the flatten/regroup properties.
-/

/-- Python runtime values as far as the handlers inspect them: strings,
integers, floats (carried exactly as a decimal mantissa/exponent pair, since
no handler logic depends on float arithmetic or printing precision),
booleans, `None`, lists, dicts (insertion-ordered key/value pairs, as in
Python 3.7+), and `bytearray` buffers (a list of byte values). -/
inductive PyVal : Type where
  | pystr (s : String)
  | pyint (n : Int)
  | pyfloat (mantissa : Int) (exp10 : Int)
  | pybool (b : Bool)
  | pynone
  | pylist (xs : List PyVal)
  | pydict (kvs : List (String × PyVal))
  | bytes (bs : List Nat)
deriving Repr

/-- One incoming serving request as the handlers read it: the loop only ever
looks at `request.get("body")`, so we carry the body directly. -/
structure Request where
  body : PyVal
deriving Repr

/-! ## UTF-8 decoding (`bytearray.decode('utf-8')`)

Python's strict UTF-8 decoder: rejects stray continuation bytes, truncated
sequences, overlong encodings, surrogate code points and code points above
U+10FFFF. -/

/-- Whether a byte is a UTF-8 continuation byte `10xxxxxx`. -/
def isCont (b : Nat) : Bool := 0x80 ≤ b ∧ b < 0xc0

/-- Strict UTF-8 decoding of a byte sequence to a character sequence;
`none` models `UnicodeDecodeError`. -/
def utf8DecodeChars : List Nat → Option (List Char)
  | [] => some []
  | b0 :: rest =>
    if b0 < 0x80 then
      (utf8DecodeChars rest).map (fun cs => Char.ofNat b0 :: cs)
    else
      match rest with
      | [] => none
      | b1 :: rest1 =>
        if b0 < 0xc2 then none
        else if b0 ≤ 0xdf then
          if isCont b1 then
            (utf8DecodeChars rest1).map
              (fun cs => Char.ofNat ((b0 - 0xc0) * 0x40 + (b1 - 0x80)) :: cs)
          else none
        else
          match rest1 with
          | [] => none
          | b2 :: rest2 =>
            if b0 ≤ 0xef then
              if isCont b1 ∧ isCont b2 ∧
                  0x800 ≤ (b0 - 0xe0) * 0x1000 + (b1 - 0x80) * 0x40 + (b2 - 0x80) ∧
                  ((b0 - 0xe0) * 0x1000 + (b1 - 0x80) * 0x40 + (b2 - 0x80) < 0xd800 ∨
                    0xdfff < (b0 - 0xe0) * 0x1000 + (b1 - 0x80) * 0x40 + (b2 - 0x80)) then
                (utf8DecodeChars rest2).map
                  (fun cs =>
                    Char.ofNat ((b0 - 0xe0) * 0x1000 + (b1 - 0x80) * 0x40 + (b2 - 0x80)) :: cs)
              else none
            else
              match rest2 with
              | [] => none
              | b3 :: rest3 =>
                if b0 ≤ 0xf4 then
                  if isCont b1 ∧ isCont b2 ∧ isCont b3 ∧
                      0x10000 ≤ (b0 - 0xf0) * 0x40000 + (b1 - 0x80) * 0x1000 +
                        (b2 - 0x80) * 0x40 + (b3 - 0x80) ∧
                      (b0 - 0xf0) * 0x40000 + (b1 - 0x80) * 0x1000 +
                        (b2 - 0x80) * 0x40 + (b3 - 0x80) ≤ 0x10ffff then
                    (utf8DecodeChars rest3).map
                      (fun cs =>
                        Char.ofNat ((b0 - 0xf0) * 0x40000 + (b1 - 0x80) * 0x1000 +
                          (b2 - 0x80) * 0x40 + (b3 - 0x80)) :: cs)
                  else none
                else none

/-- Strict UTF-8 decoding to a string. -/
def utf8Decode (bs : List Nat) : Option String :=
  (utf8DecodeChars bs).map (fun cs => String.mk cs)

/-- UTF-8 encoding of one Unicode code point. -/
def utf8EncodeChar (c : Char) : List Nat :=
  if c.toNat < 0x80 then [c.toNat]
  else if c.toNat < 0x800 then [0xc0 + c.toNat / 0x40, 0x80 + c.toNat % 0x40]
  else if c.toNat < 0x10000 then
    [0xe0 + c.toNat / 0x1000, 0x80 + c.toNat / 0x40 % 0x40, 0x80 + c.toNat % 0x40]
  else
    [0xf0 + c.toNat / 0x40000, 0x80 + c.toNat / 0x1000 % 0x40,
     0x80 + c.toNat / 0x40 % 0x40, 0x80 + c.toNat % 0x40]

/-- UTF-8 encoding of a string. -/
def utf8Encode (s : String) : List Nat := s.data.flatMap utf8EncodeChar

/-! ## JSON decoding (`json.loads`) and encoding (`json.dumps`)

A recursive-descent parser over the character list, faithful to the JSON
grammar accepted by Python's `json.loads` (strings with the standard
escapes including `\uXXXX` surrogate pairs, numbers, `true`/`false`/`null`,
arrays and objects, with JSON whitespace).  Two deliberate, claim-irrelevant
deviations from CPython: a `\uXXXX` escape denoting a lone surrogate is
rejected (Lean strings hold Unicode scalar values only, while CPython
produces a non-scalar `str`), and the `NaN`/`Infinity` extensions are not
accepted. -/

/-- The opening brace character, U+007B. -/
def lbr : Char := '\x7b'

/-- The closing brace character, U+007D. -/
def rbr : Char := '\x7d'

/-- JSON whitespace. -/
def isJsonWs (c : Char) : Bool := c = ' ' ∨ c = '\t' ∨ c = '\n' ∨ c = '\r'

/-- Skip leading JSON whitespace. -/
def skipWs : List Char → List Char
  | [] => []
  | c :: cs => if isJsonWs c then skipWs cs else c :: cs

/-- Value of one hex digit. -/
def hexVal (c : Char) : Option Nat :=
  if '0' ≤ c ∧ c ≤ '9' then some (c.toNat - 48)
  else if 'a' ≤ c ∧ c ≤ 'f' then some (c.toNat - 87)
  else if 'A' ≤ c ∧ c ≤ 'F' then some (c.toNat - 55)
  else none

/-- Value of four hex digits. -/
def hex4Val (a b c d : Char) : Option Nat :=
  match hexVal a, hexVal b, hexVal c, hexVal d with
  | some x1, some x2, some x3, some x4 =>
    some (x1 * 0x1000 + x2 * 0x100 + x3 * 0x10 + x4)
  | _, _, _, _ => none

/-- The character denoted by a single-character string escape. -/
def escCode (e : Char) : Option Char :=
  if e = '"' then some '"'
  else if e = '\\' then some '\\'
  else if e = '/' then some '/'
  else if e = 'b' then some (Char.ofNat 8)
  else if e = 'f' then some (Char.ofNat 12)
  else if e = 'n' then some (Char.ofNat 10)
  else if e = 'r' then some (Char.ofNat 13)
  else if e = 't' then some (Char.ofNat 9)
  else none

/-- Parse the escape following a backslash inside a JSON string literal:
the escaped character and the remaining input.  A `\uXXXX` escape denoting
a high surrogate must be followed by its paired low surrogate escape. -/
def parseLowSurrogate (hi : Nat) : List Char → Except String (Char × List Char)
  | e2 :: u2 :: g1 :: g2 :: g3 :: g4 :: cs3 =>
    if e2 = '\\' ∧ u2 = 'u' then
      match hex4Val g1 g2 g3 g4 with
      | some y =>
        if 0xdc00 ≤ y ∧ y ≤ 0xdfff then
          Except.ok
            (Char.ofNat (0x10000 + (hi - 0xd800) * 0x400 + (y - 0xdc00)), cs3)
        else Except.error "Unpaired surrogate"
      | none => Except.error "Invalid hex escape"
    else Except.error "Unpaired surrogate"
  | _ => Except.error "Unpaired surrogate"

/-- Parse one string escape (the backslash already consumed). -/
def parseEscape : List Char → Except String (Char × List Char)
  | [] => Except.error "Unterminated string"
  | e :: cs =>
    if e = 'u' then
      match cs with
      | h1 :: h2 :: h3 :: h4 :: cs2 =>
        match hex4Val h1 h2 h3 h4 with
        | some x =>
          if x < 0xd800 ∨ 0xdfff < x then Except.ok (Char.ofNat x, cs2)
          else if x < 0xdc00 then parseLowSurrogate x cs2
          else Except.error "Unpaired surrogate"
        | none => Except.error "Invalid hex escape"
      | _ => Except.error "Invalid hex escape"
    else
      match escCode e with
      | some d => Except.ok (d, cs)
      | none => Except.error "Invalid escape"

/-- The scanning loop of a JSON string literal body (the opening quote
already consumed): the decoded characters and the input remaining after the
closing quote.  Raw control characters are rejected (`strict=True`).  The
fuel falls by one per decoded character; since every character consumes at
least one input character, the wrapper below always supplies enough. -/
def parseStringBodyAux : Nat → List Char → Except String (List Char × List Char)
  | 0, _ => Except.error "Unterminated string"
  | _ + 1, [] => Except.error "Unterminated string"
  | fuel + 1, c :: cs =>
    if c = '"' then Except.ok ([], cs)
    else if c = '\\' then
      match parseEscape cs with
      | Except.error err => Except.error err
      | Except.ok dcs =>
        match parseStringBodyAux fuel dcs.2 with
        | Except.error err => Except.error err
        | Except.ok p => Except.ok (dcs.1 :: p.1, p.2)
    else if c.toNat < 0x20 then Except.error "Invalid control character"
    else
      match parseStringBodyAux fuel cs with
      | Except.error err => Except.error err
      | Except.ok p => Except.ok (c :: p.1, p.2)

/-- Parse the body of a JSON string literal. -/
def parseStringBody (cs : List Char) : Except String (List Char × List Char) :=
  parseStringBodyAux (cs.length + 1) cs

/-- Whether a character is a decimal digit. -/
def isDigitCh (c : Char) : Bool := '0' ≤ c ∧ c ≤ '9'

/-- Split off the longest leading run of decimal digits. -/
def spanDigits : List Char → List Char × List Char
  | [] => ([], [])
  | c :: cs =>
    if isDigitCh c then ((c :: (spanDigits cs).1), (spanDigits cs).2)
    else ([], c :: cs)

/-- Numeric value of a digit run. -/
def digitsToNat (ds : List Char) : Nat :=
  ds.foldl (fun a c => a * 10 + (c.toNat - 48)) 0

/-- Parse a JSON number starting at the first character (optional minus
sign included).  An integer literal yields a Python `int`; a literal with a
fraction or exponent yields a Python `float`, carried exactly as mantissa
and decimal exponent. -/
def parseNumber (cs : List Char) : Except String (PyVal × List Char) :=
  let sign : Bool := match cs with
    | c :: _ => c = '-'
    | [] => false
  let cs0 : List Char := match cs with
    | c :: rest => if c = '-' then rest else cs
    | [] => cs
  let intSpan := spanDigits cs0
  if intSpan.1.isEmpty then Except.error "Expecting value"
  else if 1 < intSpan.1.length ∧ intSpan.1.headD '0' = '0' then
    Except.error "Expecting value"
  else
    let intPart : Int := Int.ofNat (digitsToNat intSpan.1)
    let fracSpan : Option (List Char × List Char) := match intSpan.2 with
      | c :: rest => if c = '.' then some (spanDigits rest) else none
      | [] => none
    match fracSpan with
    | some fs =>
      if fs.1.isEmpty then Except.error "Expecting value"
      else
        let mantissa : Int := intPart * Int.ofNat (10 ^ fs.1.length) +
          Int.ofNat (digitsToNat fs.1)
        parseExpPart sign mantissa (- Int.ofNat fs.1.length) true fs.2
    | none => parseExpPart sign intPart 0 false intSpan.2
where
  /-- Parse the optional exponent part and assemble the number. -/
  parseExpPart (sign : Bool) (mantissa exp10 : Int) (isFloat : Bool)
      (cs : List Char) : Except String (PyVal × List Char) :=
    let signedMantissa := if sign then - mantissa else mantissa
    match cs with
    | c :: rest =>
      if c = 'e' ∨ c = 'E' then
        let esign : Bool := match rest with
          | d :: _ => d = '-'
          | [] => false
        let rest0 : List Char := match rest with
          | d :: rest1 => if d = '-' ∨ d = '+' then rest1 else rest
          | [] => rest
        let eSpan := spanDigits rest0
        if eSpan.1.isEmpty then Except.error "Expecting value"
        else
          let e : Int := if esign then - Int.ofNat (digitsToNat eSpan.1)
            else Int.ofNat (digitsToNat eSpan.1)
          Except.ok (PyVal.pyfloat signedMantissa (exp10 + e), eSpan.2)
      else if isFloat then
        Except.ok (PyVal.pyfloat signedMantissa exp10, cs)
      else Except.ok (PyVal.pyint signedMantissa, cs)
    | [] =>
      if isFloat then Except.ok (PyVal.pyfloat signedMantissa exp10, [])
      else Except.ok (PyVal.pyint signedMantissa, [])

mutual

/-- Parse one JSON value, returning it with the remaining input.  The fuel
argument bounds the recursion; `jsonLoads` supplies more fuel than any
input can consume. -/
def parseValue : Nat → List Char → Except String (PyVal × List Char)
  | 0, _ => Except.error "Too deeply nested"
  | fuel + 1, cs =>
    match skipWs cs with
    | [] => Except.error "Expecting value"
    | c :: cs1 =>
      if c = '"' then
        (parseStringBody cs1).map (fun p => (PyVal.pystr (String.mk p.1), p.2))
      else if c = '[' then
        match skipWs cs1 with
        | [] => Except.error "Unterminated array"
        | d :: cs2 =>
          if d = ']' then Except.ok (PyVal.pylist [], cs2)
          else
            match parseValue fuel (d :: cs2) with
            | Except.error err => Except.error err
            | Except.ok p =>
              match parseArrayTail fuel p.2 with
              | Except.error err => Except.error err
              | Except.ok q => Except.ok (PyVal.pylist (p.1 :: q.1), q.2)
      else if c = lbr then
        match skipWs cs1 with
        | [] => Except.error "Unterminated object"
        | d :: cs2 =>
          if d = rbr then Except.ok (PyVal.pydict [], cs2)
          else
            match parseObjPair fuel (d :: cs2) with
            | Except.error err => Except.error err
            | Except.ok p =>
              match parseObjTail fuel p.2 with
              | Except.error err => Except.error err
              | Except.ok q => Except.ok (PyVal.pydict (p.1 :: q.1), q.2)
      else if c = 't' then
        match cs1 with
        | c1 :: c2 :: c3 :: cs2 =>
          if c1 = 'r' ∧ c2 = 'u' ∧ c3 = 'e' then Except.ok (PyVal.pybool true, cs2)
          else Except.error "Expecting value"
        | _ => Except.error "Expecting value"
      else if c = 'f' then
        match cs1 with
        | c1 :: c2 :: c3 :: c4 :: cs2 =>
          if c1 = 'a' ∧ c2 = 'l' ∧ c3 = 's' ∧ c4 = 'e' then
            Except.ok (PyVal.pybool false, cs2)
          else Except.error "Expecting value"
        | _ => Except.error "Expecting value"
      else if c = 'n' then
        match cs1 with
        | c1 :: c2 :: c3 :: cs2 =>
          if c1 = 'u' ∧ c2 = 'l' ∧ c3 = 'l' then Except.ok (PyVal.pynone, cs2)
          else Except.error "Expecting value"
        | _ => Except.error "Expecting value"
      else parseNumber (c :: cs1)

/-- Parse the rest of a JSON array after a parsed element: either `]` or a
comma followed by an element and the rest. -/
def parseArrayTail : Nat → List Char → Except String (List PyVal × List Char)
  | 0, _ => Except.error "Too deeply nested"
  | fuel + 1, cs =>
    match skipWs cs with
    | [] => Except.error "Unterminated array"
    | c :: cs1 =>
      if c = ']' then Except.ok ([], cs1)
      else if c = ',' then
        match parseValue fuel cs1 with
        | Except.error err => Except.error err
        | Except.ok p =>
          match parseArrayTail fuel p.2 with
          | Except.error err => Except.error err
          | Except.ok q => Except.ok (p.1 :: q.1, q.2)
      else Except.error "Expecting comma"

/-- Parse one `"key": value` pair of a JSON object. -/
def parseObjPair : Nat → List Char → Except String ((String × PyVal) × List Char)
  | 0, _ => Except.error "Too deeply nested"
  | fuel + 1, cs =>
    match skipWs cs with
    | [] => Except.error "Unterminated object"
    | c :: cs1 =>
      if c = '"' then
        match parseStringBody cs1 with
        | Except.error err => Except.error err
        | Except.ok k =>
          match skipWs k.2 with
          | [] => Except.error "Expecting colon"
          | d :: cs2 =>
            if d = ':' then
              match parseValue fuel cs2 with
              | Except.error err => Except.error err
              | Except.ok v => Except.ok ((String.mk k.1, v.1), v.2)
            else Except.error "Expecting colon"
      else Except.error "Expecting property name"

/-- Parse the rest of a JSON object after a parsed pair. -/
def parseObjTail : Nat → List Char → Except String (List (String × PyVal) × List Char)
  | 0, _ => Except.error "Too deeply nested"
  | fuel + 1, cs =>
    match skipWs cs with
    | [] => Except.error "Unterminated object"
    | c :: cs1 =>
      if c = rbr then Except.ok ([], cs1)
      else if c = ',' then
        match parseObjPair fuel cs1 with
        | Except.error err => Except.error err
        | Except.ok p =>
          match parseObjTail fuel p.2 with
          | Except.error err => Except.error err
          | Except.ok q => Except.ok (p.1 :: q.1, q.2)
      else Except.error "Expecting comma"

end

/-- The model of `json.loads`: parse one value surrounded by optional
whitespace; any trailing input is an error. -/
def jsonLoads (s : String) : Except String PyVal :=
  match parseValue (s.length + 1) s.data with
  | Except.error err => Except.error err
  | Except.ok p =>
    match skipWs p.2 with
    | [] => Except.ok p.1
    | _ => Except.error "Extra data"

/-! ### `json.dumps`

Faithful to CPython's defaults: `ensure_ascii=True` (every character outside
`0x20..0x7e` is escaped, astral characters as a surrogate pair), separators
`", "` and `": "`.  Floats are rendered from the exact mantissa/exponent
pair in scientific notation; CPython prints the shortest `repr` of the IEEE
double instead — a textual difference no handler logic observes, since no
code in the repository re-reads the serialized floats. -/

/-- Hex digit character (lowercase, as CPython emits). -/
def toHexDigit (n : Nat) : Char :=
  if n < 10 then Char.ofNat (48 + n) else Char.ofNat (87 + n)

/-- The four hex digits of a `\uXXXX` escape for a value below 0x10000. -/
def uEscDigits (n : Nat) : List Char :=
  [toHexDigit (n / 0x1000 % 16), toHexDigit (n / 0x100 % 16),
   toHexDigit (n / 0x10 % 16), toHexDigit (n % 16)]

/-- A `\uXXXX` escape for a value below 0x10000. -/
def uEsc (n : Nat) : List Char := '\\' :: 'u' :: uEscDigits n

/-- Escape one character of a JSON string, as CPython's
`json.encoder.py_encode_basestring_ascii` does. -/
def escapeChar (c : Char) : List Char :=
  if c = '"' then ['\\', '"']
  else if c = '\\' then ['\\', '\\']
  else if c = Char.ofNat 8 then ['\\', 'b']
  else if c = Char.ofNat 9 then ['\\', 't']
  else if c = Char.ofNat 10 then ['\\', 'n']
  else if c = Char.ofNat 12 then ['\\', 'f']
  else if c = Char.ofNat 13 then ['\\', 'r']
  else if 0x20 ≤ c.toNat ∧ c.toNat < 0x7f then [c]
  else if c.toNat < 0x10000 then uEsc c.toNat
  else uEsc (0xd800 + (c.toNat - 0x10000) / 0x400) ++
    uEsc (0xdc00 + (c.toNat - 0x10000) % 0x400)

/-- A JSON string literal for `s`. -/
def dumpStringChars (s : String) : List Char :=
  '"' :: (s.data.flatMap escapeChar ++ ['"'])

/-- The characters after the first element of a dumped list of strings:
`", "`-separated further elements and the closing bracket. -/
def dumpsTailChars : List String → List Char
  | [] => [']']
  | s :: L => ',' :: ' ' :: (dumpStringChars s ++ dumpsTailChars L)

/-- The characters of `json.dumps` applied to a list of strings. -/
def dumpsChars : List String → List Char
  | [] => ['[', ']']
  | s :: L => '[' :: (dumpStringChars s ++ dumpsTailChars L)

/-- `json.dumps` of a list of strings. -/
def jsonDumpsStrs (L : List String) : String := String.mk (dumpsChars L)

/-- Decimal rendering of an integer. -/
def intDumpChars (n : Int) : List Char := (toString n).data

mutual

/-- The model of `json.dumps` on an arbitrary Python value; a contained
`bytearray` raises `TypeError`, modelled as the error case. -/
def pyDumps : PyVal → Except String (List Char)
  | PyVal.pystr s => Except.ok (dumpStringChars s)
  | PyVal.pyint n => Except.ok (intDumpChars n)
  | PyVal.pyfloat m e => Except.ok (intDumpChars m ++ 'e' :: intDumpChars e)
  | PyVal.pybool b =>
    Except.ok (if b then ['t', 'r', 'u', 'e'] else ['f', 'a', 'l', 's', 'e'])
  | PyVal.pynone => Except.ok ['n', 'u', 'l', 'l']
  | PyVal.pylist xs =>
    match pyDumpsItems xs with
    | Except.error err => Except.error err
    | Except.ok l => Except.ok ('[' :: (l ++ [']']))
  | PyVal.pydict kvs =>
    match pyDumpsPairs kvs with
    | Except.error err => Except.error err
    | Except.ok l => Except.ok (lbr :: (l ++ [rbr]))
  | PyVal.bytes _ =>
    Except.error "Object of type bytearray is not JSON serializable"

/-- `", "`-separated dumps of list elements. -/
def pyDumpsItems : List PyVal → Except String (List Char)
  | [] => Except.ok []
  | [x] => pyDumps x
  | x :: y :: xs =>
    match pyDumps x with
    | Except.error err => Except.error err
    | Except.ok a =>
      match pyDumpsItems (y :: xs) with
      | Except.error err => Except.error err
      | Except.ok b => Except.ok (a ++ ',' :: ' ' :: b)

/-- `", "`-separated dumps of object pairs, with `": "` after each key. -/
def pyDumpsPairs : List (String × PyVal) → Except String (List Char)
  | [] => Except.ok []
  | [kv] =>
    match pyDumps kv.2 with
    | Except.error err => Except.error err
    | Except.ok v => Except.ok (dumpStringChars kv.1 ++ ':' :: ' ' :: v)
  | kv :: kv2 :: kvs =>
    match pyDumps kv.2 with
    | Except.error err => Except.error err
    | Except.ok a =>
      match pyDumpsPairs (kv2 :: kvs) with
      | Except.error err => Except.error err
      | Except.ok b =>
        Except.ok (dumpStringChars kv.1 ++ ':' :: ' ' :: a ++ ',' :: ' ' :: b)

end

/-- `json.dumps` producing a string. -/
def pyDumpsString (v : PyVal) : Except String String :=
  match pyDumps v with
  | Except.error err => Except.error err
  | Except.ok l => Except.ok (String.mk l)

/-! ## The handlers -/

/-- Modelled from the spec: the tokenizer is an external collaborator whose
contract (section 4.2) takes the flat text sequence — a batch of text items,
i.e. strings — and whose input type mismatches propagate as uncaught
failures (section 7).  Only this input validation is modelled; tokenization
itself is opaque and the claims never depend on token values, so the
validated strings are returned unchanged. -/
def tokenizerEncode : List PyVal → Except String (List String)
  | [] => Except.ok []
  | PyVal.pystr s :: xs =>
    match tokenizerEncode xs with
    | Except.error err => Except.error err
    | Except.ok rest => Except.ok (s :: rest)
  | _ :: _ => Except.error "text input must be of type str"

/-- The `inference` output dict `{"pred": ..., "batch_l": ...}` as
`postprocess` reads it: the flat batch of per-item embedding vectors (the
tensor rows, one per flattened text item, of element type `α`) and the
group-size list. -/
structure Prediction (α : Type) where
  pred : List α
  batch_l : List Nat

namespace TextEmbeddingModelHandler

/-- The body-decoding head of the `preprocess` loop
(`text_embedding_handler.py` lines 43-46): a `bytearray` body is UTF-8
decoded and then JSON parsed; any other body is used as is. -/
def decodeRequestBody : PyVal → Except String PyVal
  | PyVal.bytes bs =>
    match utf8Decode bs with
    | none => Except.error "UnicodeDecodeError"
    | some s => jsonLoads s
  | v => Except.ok v

/-- One iteration of the `preprocess` loop (lines 41-53): decode the body;
a list body extends `inputSentence` and records its length in `batch_idx`,
any other body is appended as a single item with recorded size 1. -/
def preprocessStep (acc : List PyVal × List Nat) (request : Request) :
    Except String (List PyVal × List Nat) :=
  match decodeRequestBody request.body with
  | Except.error err => Except.error err
  | Except.ok (PyVal.pylist xs) => Except.ok (acc.1 ++ xs, acc.2 ++ [xs.length])
  | Except.ok v => Except.ok (acc.1 ++ [v], acc.2 ++ [1])

/-- The `preprocess` loop over all requests, threading
`(inputSentence, batch_idx)` and propagating the first uncaught decoding
failure. -/
def preprocessLoopAux : (List PyVal × List Nat) → List Request →
    Except String (List PyVal × List Nat)
  | acc, [] => Except.ok acc
  | acc, r :: rs =>
    match preprocessStep acc r with
    | Except.error err => Except.error err
    | Except.ok acc2 => preprocessLoopAux acc2 rs

/-- The flattening part of `preprocess`: the flat text sequence and the
group-size sequence. -/
def preprocessLoop (requests : List Request) :
    Except String (List PyVal × List Nat) :=
  preprocessLoopAux ([], []) requests

/-- All of `preprocess` up to its returned `{"input", "batch_l"}` dict: the
loop followed by the tokenizer call on the flat sentence list. -/
def preprocess (requests : List Request) :
    Except String (List String × List Nat) :=
  match preprocessLoop requests with
  | Except.error err => Except.error err
  | Except.ok fl =>
    match tokenizerEncode fl.1 with
    | Except.error err => Except.error err
    | Except.ok sentences => Except.ok (sentences, fl.2)

/-- `postprocess` (lines 69-78): slice the flat prediction batch back into
per-request groups, each `b`-sized slice starting where the previous ended
(`predictions[index:index+b]`, a clamping Python slice). -/
def postprocess {α : Type} (prediction : Prediction α) : List (List α) :=
  (prediction.batch_l.foldl
    (fun acc b => (acc.1 ++ [(prediction.pred.drop acc.2).take b], acc.2 + b))
    (([] : List (List α)), 0)).1

end TextEmbeddingModelHandler

namespace SparseEncodingModelHandler

/-- The body-decoding head of the `preprocess` loop (`xinyuan_handler.py`
lines 35-38), line for line the same as the other handler's. -/
def decodeRequestBody : PyVal → Except String PyVal
  | PyVal.bytes bs =>
    match utf8Decode bs with
    | none => Except.error "UnicodeDecodeError"
    | some s => jsonLoads s
  | v => Except.ok v

/-- One iteration of the `preprocess` loop (lines 33-45). -/
def preprocessStep (acc : List PyVal × List Nat) (request : Request) :
    Except String (List PyVal × List Nat) :=
  match decodeRequestBody request.body with
  | Except.error err => Except.error err
  | Except.ok (PyVal.pylist xs) => Except.ok (acc.1 ++ xs, acc.2 ++ [xs.length])
  | Except.ok v => Except.ok (acc.1 ++ [v], acc.2 ++ [1])

/-- The `preprocess` loop over all requests. -/
def preprocessLoopAux : (List PyVal × List Nat) → List Request →
    Except String (List PyVal × List Nat)
  | acc, [] => Except.ok acc
  | acc, r :: rs =>
    match preprocessStep acc r with
    | Except.error err => Except.error err
    | Except.ok acc2 => preprocessLoopAux acc2 rs

/-- The flattening part of `preprocess`. -/
def preprocessLoop (requests : List Request) :
    Except String (List PyVal × List Nat) :=
  preprocessLoopAux ([], []) requests

/-- All of `preprocess` up to its returned dict. -/
def preprocess (requests : List Request) :
    Except String (List String × List Nat) :=
  match preprocessLoop requests with
  | Except.error err => Except.error err
  | Except.ok fl =>
    match tokenizerEncode fl.1 with
    | Except.error err => Except.error err
    | Except.ok sentences => Except.ok (sentences, fl.2)

/-- `postprocess` (lines 62-71), line for line the same as the other
handler's. -/
def postprocess {α : Type} (prediction : Prediction α) : List (List α) :=
  (prediction.batch_l.foldl
    (fun acc b => (acc.1 ++ [(prediction.pred.drop acc.2).take b], acc.2 + b))
    (([] : List (List α)), 0)).1

/-- `postResult` (lines 73-80): serialize each entry of `result_list` (at
its call sites a per-request group, a list of embedding vectors) into a
JSON record; `json.dumps` raising (only possible for values outside what
`postprocess` produces) propagates. -/
def postResult (result_list : List (List PyVal)) : Except String (List String) :=
  postResultAux result_list []
where
  /-- The `for result in result_list` loop, appending to `outputs`. -/
  postResultAux : List (List PyVal) → List String → Except String (List String)
    | [], outputs => Except.ok outputs
    | result :: rest, outputs =>
      match pyDumpsString (PyVal.pydict
          [("name", PyVal.pystr "sentence_embedding"),
           ("data_type", PyVal.pystr "FLOAT32"),
           ("shape", PyVal.pyint (Int.ofNat result.length)),
           ("data", PyVal.pylist result)]) with
      | Except.error err => Except.error err
      | Except.ok s => postResultAux rest (outputs ++ [s])

end SparseEncodingModelHandler

/-! ## Specification-side descriptions

These definitions restate, in the specification's vocabulary, what one
request contributes; the theorems below compare the handler code against
them. -/

/-- Per-request flat-text contribution as the specification describes it: a
body that (after byte decoding and JSON parsing when it arrives as a byte
buffer) is a JSON array contributes its elements in order; any other body
is one single item.  The request's group size is the length of this list. -/
def requestItems (r : Request) : Except String (List PyVal) :=
  match TextEmbeddingModelHandler.decodeRequestBody r.body with
  | Except.error err => Except.error err
  | Except.ok (PyVal.pylist xs) => Except.ok xs
  | Except.ok v => Except.ok [v]

/-- The contributions of all requests, in request order, stopping at the
first failing request. -/
def requestItemsAll : List Request → Except String (List (List PyVal))
  | [] => Except.ok []
  | r :: rs =>
    match requestItems r with
    | Except.error err => Except.error err
    | Except.ok items =>
      match requestItemsAll rs with
      | Except.error err => Except.error err
      | Except.ok rest => Except.ok (items :: rest)

/-- Recursive form of the regrouping loop, used to reason about
`postprocess`: group `i` is the contiguous slice starting at the running
index with the group's size. -/
def regroupAux {α : Type} (pred : List α) : List Nat → Nat → List (List α)
  | [], _ => []
  | b :: bs, index => (pred.drop index).take b :: regroupAux pred bs (index + b)

/-- Whether a Python value is a `str`. -/
def isPyStr : PyVal → Bool
  | PyVal.pystr _ => true
  | _ => false

/-- Whether an `Except` result is the error case. -/
def isErr {ε α : Type} : Except ε α → Bool
  | Except.error _ => true
  | Except.ok _ => false

/-- The bad byte-buffer bodies of claim C5: a `bytearray` whose bytes are
not valid UTF-8, decode to text that is not valid JSON, or decode to a JSON
array containing a non-string element. -/
def badByteBody : PyVal → Bool
  | PyVal.bytes bs =>
    match utf8Decode bs with
    | none => true
    | some s =>
      match jsonLoads s with
      | Except.error _ => true
      | Except.ok (PyVal.pylist xs) => xs.any (fun x => !(isPyStr x))
      | Except.ok _ => false
  | _ => false

/-- The JSON record text `postResult` builds for one entry of its input:
field `shape` is the Python `len` of the entry (at the intended call sites,
the number of vectors in the group) and field `data` is the entry itself. -/
def recordDump (result : List PyVal) : Except String String :=
  pyDumpsString (PyVal.pydict
    [("name", PyVal.pystr "sentence_embedding"),
     ("data_type", PyVal.pystr "FLOAT32"),
     ("shape", PyVal.pyint (Int.ofNat result.length)),
     ("data", PyVal.pylist result)])

/-- Specification-side description of `postResult`: one JSON-encoded record
per input group, in input order. -/
def postResultSpec : List (List PyVal) → Except String (List String)
  | [] => Except.ok []
  | r :: rest =>
    match recordDump r with
    | Except.error err => Except.error err
    | Except.ok s =>
      match postResultSpec rest with
      | Except.error err => Except.error err
      | Except.ok tail => Except.ok (s :: tail)

/-! ## Lemmas and theorems -/

theorem char_toNat_facts (c : Char) :
    c.toNat < 0x110000 ∧ ¬ (0xd800 ≤ c.toNat ∧ c.toNat ≤ 0xdfff) := by
  have hval : c.val.isValidChar := c.valid
  have hct : c.toNat = c.val.toNat := rfl
  rcases hval with h | h
  · constructor <;> omega
  · rcases h with ⟨h1, h2⟩
    constructor <;> omega

theorem utf8DecodeChars_encodeChar (c : Char) (rest : List Nat) :
    utf8DecodeChars (utf8EncodeChar c ++ rest) =
      (utf8DecodeChars rest).map (fun cs => c :: cs) := by
  obtain ⟨hlt, hsur⟩ := char_toNat_facts c
  have hofNat : Char.ofNat c.toNat = c := Char.ofNat_toNat c
  by_cases h1 : c.toNat < 0x80
  · have henc : utf8EncodeChar c = [c.toNat] := by
      simp only [utf8EncodeChar]; rw [if_pos h1]
    rw [henc, List.cons_append, List.nil_append, utf8DecodeChars.eq_def]
    simp only []
    rw [if_pos h1]
    simp only [hofNat]
  · by_cases h2 : c.toNat < 0x800
    · have hb0 : ¬ (0xc0 + c.toNat / 0x40 < 0x80) := by omega
      have hb0a : ¬ (0xc0 + c.toNat / 0x40 < 0xc2) := by omega
      have hb0b : 0xc0 + c.toNat / 0x40 ≤ 0xdf := by omega
      have hcont : isCont (0x80 + c.toNat % 0x40) = true := by
        simp only [isCont, decide_eq_true_eq]; omega
      have harith : (0xc0 + c.toNat / 0x40 - 0xc0) * 0x40 +
          (0x80 + c.toNat % 0x40 - 0x80) = c.toNat := by omega
      have henc : utf8EncodeChar c =
          [0xc0 + c.toNat / 0x40, 0x80 + c.toNat % 0x40] := by
        simp only [utf8EncodeChar]; rw [if_neg h1, if_pos h2]
      rw [henc, List.cons_append, List.cons_append, List.nil_append,
        utf8DecodeChars.eq_def]
      simp only []
      rw [if_neg hb0, if_neg hb0a, if_pos hb0b, if_pos hcont]
      simp only [harith, hofNat]
    · by_cases h3 : c.toNat < 0x10000
      · have hb0 : ¬ (0xe0 + c.toNat / 0x1000 < 0x80) := by omega
        have hb0a : ¬ (0xe0 + c.toNat / 0x1000 < 0xc2) := by omega
        have hb0b : ¬ (0xe0 + c.toNat / 0x1000 ≤ 0xdf) := by omega
        have hb0c : 0xe0 + c.toNat / 0x1000 ≤ 0xef := by omega
        have hc1 : isCont (0x80 + c.toNat / 0x40 % 0x40) = true := by
          simp only [isCont, decide_eq_true_eq]; omega
        have hc2 : isCont (0x80 + c.toNat % 0x40) = true := by
          simp only [isCont, decide_eq_true_eq]; omega
        have harith : (0xe0 + c.toNat / 0x1000 - 0xe0) * 0x1000 +
            (0x80 + c.toNat / 0x40 % 0x40 - 0x80) * 0x40 +
            (0x80 + c.toNat % 0x40 - 0x80) = c.toNat := by omega
        have henc : utf8EncodeChar c =
            [0xe0 + c.toNat / 0x1000, 0x80 + c.toNat / 0x40 % 0x40,
             0x80 + c.toNat % 0x40] := by
          simp only [utf8EncodeChar]; rw [if_neg h1, if_neg h2, if_pos h3]
        rw [henc, List.cons_append, List.cons_append, List.cons_append,
          List.nil_append, utf8DecodeChars.eq_def]
        simp only []
        rw [if_neg hb0, if_neg hb0a, if_neg hb0b, if_pos hb0c]
        rw [if_pos (by refine ⟨hc1, hc2, by omega, by omega⟩)]
        simp only [harith, hofNat]
      · have hb0 : ¬ (0xf0 + c.toNat / 0x40000 < 0x80) := by omega
        have hb0a : ¬ (0xf0 + c.toNat / 0x40000 < 0xc2) := by omega
        have hb0b : ¬ (0xf0 + c.toNat / 0x40000 ≤ 0xdf) := by omega
        have hb0c : ¬ (0xf0 + c.toNat / 0x40000 ≤ 0xef) := by omega
        have hb0d : 0xf0 + c.toNat / 0x40000 ≤ 0xf4 := by omega
        have hc1 : isCont (0x80 + c.toNat / 0x1000 % 0x40) = true := by
          simp only [isCont, decide_eq_true_eq]; omega
        have hc2 : isCont (0x80 + c.toNat / 0x40 % 0x40) = true := by
          simp only [isCont, decide_eq_true_eq]; omega
        have hc3 : isCont (0x80 + c.toNat % 0x40) = true := by
          simp only [isCont, decide_eq_true_eq]; omega
        have harith : (0xf0 + c.toNat / 0x40000 - 0xf0) * 0x40000 +
            (0x80 + c.toNat / 0x1000 % 0x40 - 0x80) * 0x1000 +
            (0x80 + c.toNat / 0x40 % 0x40 - 0x80) * 0x40 +
            (0x80 + c.toNat % 0x40 - 0x80) = c.toNat := by omega
        have henc : utf8EncodeChar c =
            [0xf0 + c.toNat / 0x40000, 0x80 + c.toNat / 0x1000 % 0x40,
             0x80 + c.toNat / 0x40 % 0x40, 0x80 + c.toNat % 0x40] := by
          simp only [utf8EncodeChar]; rw [if_neg h1, if_neg h2, if_neg h3]
        rw [henc, List.cons_append, List.cons_append, List.cons_append,
          List.cons_append, List.nil_append, utf8DecodeChars.eq_def]
        simp only []
        rw [if_neg hb0, if_neg hb0a, if_neg hb0b, if_neg hb0c, if_pos hb0d]
        rw [if_pos (by refine ⟨hc1, hc2, hc3, by omega, by omega⟩)]
        simp only [harith, hofNat]

theorem utf8DecodeChars_encode (cs : List Char) :
    utf8DecodeChars (cs.flatMap utf8EncodeChar) = some cs := by
  induction cs with
  | nil => rfl
  | cons c cs ih =>
    rw [List.flatMap_cons, utf8DecodeChars_encodeChar, ih, Option.map_some']

/-- Round trip: strict UTF-8 decoding inverts UTF-8 encoding. -/
theorem utf8Decode_encode (s : String) : utf8Decode (utf8Encode s) = some s := by
  rw [utf8Encode, utf8Decode, utf8DecodeChars_encode, Option.map_some']

/-! ### The preprocess loop versus the per-request description -/

theorem preprocessStep_eq (acc : List PyVal × List Nat) (r : Request) :
    TextEmbeddingModelHandler.preprocessStep acc r =
      match requestItems r with
      | Except.error err => Except.error err
      | Except.ok items => Except.ok (acc.1 ++ items, acc.2 ++ [items.length]) := by
  unfold TextEmbeddingModelHandler.preprocessStep requestItems
  cases TextEmbeddingModelHandler.decodeRequestBody r.body with
  | error e => rfl
  | ok v => cases v <;> rfl

theorem preprocessLoopAux_eq (reqs : List Request) :
    ∀ acc, TextEmbeddingModelHandler.preprocessLoopAux acc reqs =
      match requestItemsAll reqs with
      | Except.error err => Except.error err
      | Except.ok itemss =>
        Except.ok (acc.1 ++ itemss.flatten, acc.2 ++ itemss.map List.length) := by
  induction reqs with
  | nil =>
    intro acc
    simp [TextEmbeddingModelHandler.preprocessLoopAux, requestItemsAll]
  | cons r rs ih =>
    intro acc
    rw [TextEmbeddingModelHandler.preprocessLoopAux.eq_def]
    simp only []
    rw [preprocessStep_eq, requestItemsAll.eq_def]
    simp only []
    cases hr : requestItems r with
    | error e => rfl
    | ok items =>
      simp only []
      rw [ih]
      cases ha : requestItemsAll rs with
      | error e => rfl
      | ok itemss => simp [List.flatten_cons, List.append_assoc]

theorem preprocessLoop_eq (reqs : List Request) :
    TextEmbeddingModelHandler.preprocessLoop reqs =
      match requestItemsAll reqs with
      | Except.error err => Except.error err
      | Except.ok itemss =>
        Except.ok (itemss.flatten, itemss.map List.length) := by
  rw [TextEmbeddingModelHandler.preprocessLoop, preprocessLoopAux_eq]
  cases requestItemsAll reqs with
  | error e => rfl
  | ok itemss => simp

theorem requestItemsAll_length (reqs : List Request) :
    ∀ itemss, requestItemsAll reqs = Except.ok itemss →
      itemss.length = reqs.length := by
  induction reqs with
  | nil =>
    intro itemss h
    cases h
    rfl
  | cons r rs ih =>
    intro itemss h
    rw [requestItemsAll.eq_def] at h
    simp only [] at h
    cases hr : requestItems r with
    | error e => rw [hr] at h; cases h
    | ok items =>
      rw [hr] at h
      cases ha : requestItemsAll rs with
      | error e => rw [ha] at h; cases h
      | ok rest =>
        rw [ha] at h
        cases h
        simp [ih rest ha]

/-- C2: for every request body processed by `preprocess`, a body that (after
UTF-8 decoding and JSON parsing when it arrives as a byte buffer) is a JSON
array contributes each of its elements, in order, to the flat text sequence
with the array's length recorded as its group size; any other body
contributes itself as a single item with group size 1; requests are
processed in order with no reordering. -/
theorem preprocess_flattens_in_order :
    (∀ requests : List Request,
      TextEmbeddingModelHandler.preprocessLoop requests =
        match requestItemsAll requests with
        | Except.error err => Except.error err
        | Except.ok itemss =>
          Except.ok (itemss.flatten, itemss.map List.length)) ∧
    (∀ (r : Request) (xs : List PyVal),
      TextEmbeddingModelHandler.decodeRequestBody r.body =
          Except.ok (PyVal.pylist xs) →
        requestItems r = Except.ok xs) ∧
    (∀ (r : Request) (v : PyVal),
      TextEmbeddingModelHandler.decodeRequestBody r.body = Except.ok v →
        (∀ xs, v ≠ PyVal.pylist xs) →
        requestItems r = Except.ok [v]) ∧
    TextEmbeddingModelHandler.preprocessLoop
        [Request.mk (PyVal.pystr "hello world"),
         Request.mk (PyVal.pylist
           [PyVal.pystr "a", PyVal.pystr "b", PyVal.pystr "c"])] =
      Except.ok ([PyVal.pystr "hello world", PyVal.pystr "a", PyVal.pystr "b",
        PyVal.pystr "c"], [1, 3]) := by
  refine ⟨preprocessLoop_eq, ?_, ?_, rfl⟩
  · intro r xs h
    unfold requestItems
    rw [h]
  · intro r v h hv
    unfold requestItems
    rw [h]
    cases v with
    | pylist xs => exact absurd rfl (hv xs)
    | pystr s => rfl
    | pyint n => rfl
    | pyfloat m e => rfl
    | pybool b => rfl
    | pynone => rfl
    | pydict kvs => rfl
    | bytes bs => rfl

/-- Witness for C2: the hypotheses of the conditional conjuncts are
satisfiable; a decoded list body of length 3 contributes exactly its
elements, a decoded scalar body exactly itself. -/
theorem preprocess_flattens_in_order_witness :
    requestItems (Request.mk (PyVal.bytes [91, 34, 97, 34, 93])) =
      Except.ok [PyVal.pystr "a"] ∧
    requestItems (Request.mk (PyVal.pystr "hello world")) =
      Except.ok [PyVal.pystr "hello world"] :=
  ⟨preprocess_flattens_in_order.2.1 _ [PyVal.pystr "a"] rfl,
   preprocess_flattens_in_order.2.2.1 _ (PyVal.pystr "hello world") rfl
     (fun xs h => PyVal.noConfusion h)⟩

/-- C3: the group sizes produced by `preprocess` sum to the length of the
flat text sequence it produces. -/
theorem group_sizes_sum_to_flat_length
    (requests : List Request) (flat : List PyVal) (sizes : List Nat)
    (h : TextEmbeddingModelHandler.preprocessLoop requests =
      Except.ok (flat, sizes)) :
    sizes.sum = flat.length := by
  rw [preprocessLoop_eq] at h
  cases ha : requestItemsAll requests with
  | error e => rw [ha] at h; cases h
  | ok itemss =>
    rw [ha] at h
    cases h
    exact (List.length_flatten itemss).symm

/-- Witness for C3: on the specification's two-request example the sizes
`[1, 3]` sum to the flat length 4. -/
theorem group_sizes_sum_to_flat_length_witness :
    ([1, 3] : List Nat).sum =
      ([PyVal.pystr "hello world", PyVal.pystr "a", PyVal.pystr "b",
        PyVal.pystr "c"] : List PyVal).length :=
  group_sizes_sum_to_flat_length
    [Request.mk (PyVal.pystr "hello world"),
     Request.mk (PyVal.pylist [PyVal.pystr "a", PyVal.pystr "b", PyVal.pystr "c"])]
    _ _ rfl

/-- C9: only `bytearray` bodies are UTF-8-decoded and JSON-parsed; a body
that is already a string — even one whose text is valid JSON for a list —
is never parsed, is treated as one scalar text item, and contributes group
size 1. -/
theorem string_body_never_parsed :
    (∀ s : String, TextEmbeddingModelHandler.decodeRequestBody (PyVal.pystr s) =
      Except.ok (PyVal.pystr s)) ∧
    (∀ s : String,
      TextEmbeddingModelHandler.preprocessLoop [Request.mk (PyVal.pystr s)] =
        Except.ok ([PyVal.pystr s], [1])) ∧
    TextEmbeddingModelHandler.preprocessLoop
        [Request.mk (PyVal.pystr "[\"a\",\"b\"]")] =
      Except.ok ([PyVal.pystr "[\"a\",\"b\"]"], [1]) :=
  ⟨fun s => rfl, fun s => rfl, rfl⟩

theorem preprocessStep_equiv (acc : List PyVal × List Nat) (r : Request) :
    TextEmbeddingModelHandler.preprocessStep acc r =
      SparseEncodingModelHandler.preprocessStep acc r := rfl

theorem preprocessLoopAux_equiv (reqs : List Request) :
    ∀ acc, TextEmbeddingModelHandler.preprocessLoopAux acc reqs =
      SparseEncodingModelHandler.preprocessLoopAux acc reqs := by
  induction reqs with
  | nil => intro acc; rfl
  | cons r rs ih =>
    intro acc
    rw [TextEmbeddingModelHandler.preprocessLoopAux.eq_def,
      SparseEncodingModelHandler.preprocessLoopAux.eq_def]
    simp only []
    rw [preprocessStep_equiv]
    cases SparseEncodingModelHandler.preprocessStep acc r with
    | error e => rfl
    | ok acc2 => exact ih acc2

theorem preprocessLoop_equiv (reqs : List Request) :
    TextEmbeddingModelHandler.preprocessLoop reqs =
      SparseEncodingModelHandler.preprocessLoop reqs :=
  preprocessLoopAux_equiv reqs ([], [])

/-- C8: the two handlers are behaviourally identical on the logic they
share: same flattening (both the loop and the full `preprocess`) and same
regrouping. -/
theorem handlers_equivalent :
    (∀ requests : List Request,
      TextEmbeddingModelHandler.preprocessLoop requests =
        SparseEncodingModelHandler.preprocessLoop requests) ∧
    (∀ requests : List Request,
      TextEmbeddingModelHandler.preprocess requests =
        SparseEncodingModelHandler.preprocess requests) ∧
    (∀ (α : Type) (prediction : Prediction α),
      TextEmbeddingModelHandler.postprocess prediction =
        SparseEncodingModelHandler.postprocess prediction) := by
  refine ⟨preprocessLoop_equiv, ?_, fun α prediction => rfl⟩
  intro requests
  unfold TextEmbeddingModelHandler.preprocess SparseEncodingModelHandler.preprocess
  rw [preprocessLoop_equiv]

/-! ### The postprocess loop versus the slice description -/

theorem postprocess_foldl_eq {α : Type} (pred : List α) (bs : List Nat) :
    ∀ (outputs : List (List α)) (index : Nat),
      (bs.foldl (fun acc b => (acc.1 ++ [(pred.drop acc.2).take b], acc.2 + b))
        (outputs, index)).1 = outputs ++ regroupAux pred bs index := by
  induction bs with
  | nil => intro o i; simp [regroupAux]
  | cons b bs ih =>
    intro o i
    rw [List.foldl_cons, ih]
    simp [regroupAux, List.append_assoc]

theorem postprocess_eq_regroupAux {α : Type} (vecs : List α) (sizes : List Nat) :
    TextEmbeddingModelHandler.postprocess (Prediction.mk vecs sizes) =
      regroupAux vecs sizes 0 := by
  unfold TextEmbeddingModelHandler.postprocess
  rw [postprocess_foldl_eq]
  simp

theorem regroupAux_length {α : Type} (pred : List α) (bs : List Nat) :
    ∀ index, (regroupAux pred bs index).length = bs.length := by
  induction bs with
  | nil => intro i; rfl
  | cons b bs ih => intro i; simp [regroupAux, ih]

theorem regroupAux_getD {α : Type} (pred : List α) (bs : List Nat) :
    ∀ (index i : Nat), i < bs.length →
      (regroupAux pred bs index).getD i [] =
        (pred.drop (index + (bs.take i).sum)).take (bs.getD i 0) := by
  induction bs with
  | nil => intro index i h; simp at h
  | cons b bs ih =>
    intro index i h
    cases i with
    | zero => simp [regroupAux]
    | succ j =>
      have hj : j < bs.length := by simpa using h
      simp only [regroupAux, List.getD_cons_succ, List.take_succ_cons,
        List.sum_cons]
      rw [ih (index + b) j hj, Nat.add_assoc]

theorem take_sum_add_getD_le (sizes : List Nat) :
    ∀ i, i < sizes.length → (sizes.take i).sum + sizes.getD i 0 ≤ sizes.sum := by
  induction sizes with
  | nil => intro i h; simp at h
  | cons b bs ih =>
    intro i h
    cases i with
    | zero =>
      simp only [List.take_zero, List.sum_nil, List.getD_cons_zero,
        List.sum_cons]
      omega
    | succ j =>
      have hj : j < bs.length := by simpa using h
      simp only [List.take_succ_cons, List.sum_cons, List.getD_cons_succ]
      have := ih j hj
      omega

theorem getD_map_length (l : List (List PyVal)) :
    ∀ i, i < l.length → (l.map List.length).getD i 0 = (l.getD i []).length := by
  induction l with
  | nil => intro i h; simp at h
  | cons x xs ih =>
    intro i h
    cases i with
    | zero => simp
    | succ j =>
      have hj : j < xs.length := by simpa using h
      simp only [List.map_cons, List.getD_cons_succ]
      exact ih j hj

/-- C10: `postprocess` never raises for any group-size sequence: the model
is a total function (as Python's clamping slice semantics make the source),
it always returns exactly one group per group-size entry, each group is the
clamping slice starting at the running sum — so sizes that over-run the
vector batch yield shorter (possibly empty) groups, and sizes that under-run
it leave trailing vectors out of every group. -/
theorem postprocess_never_raises {α : Type} (vecs : List α) (sizes : List Nat) :
    (TextEmbeddingModelHandler.postprocess (Prediction.mk vecs sizes)).length =
      sizes.length ∧
    ∀ i, i < sizes.length →
      (TextEmbeddingModelHandler.postprocess (Prediction.mk vecs sizes)).getD i [] =
        (vecs.drop ((sizes.take i).sum)).take (sizes.getD i 0) ∧
      ((TextEmbeddingModelHandler.postprocess
          (Prediction.mk vecs sizes)).getD i []).length =
        min (sizes.getD i 0) (vecs.length - (sizes.take i).sum) := by
  rw [postprocess_eq_regroupAux]
  refine ⟨regroupAux_length vecs sizes 0, ?_⟩
  intro i hi
  rw [regroupAux_getD vecs sizes 0 i hi]
  simp only [Nat.zero_add]
  refine ⟨trivial, ?_⟩
  rw [List.length_take, List.length_drop]

/-- Witness for C10: over-running sizes `[3, 4]` on two vectors give the
clamped groups `[10, 20]` and `[]`; an under-running size `[1]` on three
vectors still gives one group per entry. -/
theorem postprocess_never_raises_witness :
    (TextEmbeddingModelHandler.postprocess
      (Prediction.mk [10, 20] [3, 4])).getD 0 [] = [10, 20] ∧
    (TextEmbeddingModelHandler.postprocess
      (Prediction.mk [10, 20] [3, 4])).getD 1 [] = [] ∧
    (TextEmbeddingModelHandler.postprocess
      (Prediction.mk [10, 20, 30] [1])).length = 1 :=
  ⟨Eq.trans ((postprocess_never_raises [10, 20] [3, 4]).2 0 (by decide)).1
      (by decide),
   Eq.trans ((postprocess_never_raises [10, 20] [3, 4]).2 1 (by decide)).1
      (by decide),
   Eq.trans (postprocess_never_raises [10, 20, 30] [1]).1 rfl⟩

/-- C4: for a flat vector sequence and a group-size sequence summing to its
length — zeros included — `postprocess` yields one group per entry, group
`i` being the contiguous slice of length `sizes[i]` starting at the running
sum of the earlier sizes; a zero size yields an empty group rather than an
error. -/
theorem postprocess_regroups {α : Type} (vecs : List α) (sizes : List Nat)
    (hsum : sizes.sum = vecs.length) :
    (TextEmbeddingModelHandler.postprocess (Prediction.mk vecs sizes)).length =
      sizes.length ∧
    ∀ i, i < sizes.length →
      (TextEmbeddingModelHandler.postprocess (Prediction.mk vecs sizes)).getD i [] =
        (vecs.drop ((sizes.take i).sum)).take (sizes.getD i 0) ∧
      ((TextEmbeddingModelHandler.postprocess
          (Prediction.mk vecs sizes)).getD i []).length = sizes.getD i 0 ∧
      (sizes.getD i 0 = 0 →
        (TextEmbeddingModelHandler.postprocess
          (Prediction.mk vecs sizes)).getD i [] = []) := by
  rw [postprocess_eq_regroupAux]
  refine ⟨regroupAux_length vecs sizes 0, ?_⟩
  intro i hi
  rw [regroupAux_getD vecs sizes 0 i hi]
  simp only [Nat.zero_add]
  have hle := take_sum_add_getD_le sizes i hi
  refine ⟨trivial, ?_, ?_⟩
  · rw [List.length_take, List.length_drop]
    exact Nat.min_eq_left (by omega)
  · intro h0
    rw [h0, List.take_zero]

/-- Witness for C4: the specification's `[1, 3]` example regroups four
vectors into the slices `[10]` and `[20, 30, 40]`, and a lone zero-size
request on an empty batch yields `[[]]`. -/
theorem postprocess_regroups_witness :
    (TextEmbeddingModelHandler.postprocess
      (Prediction.mk [10, 20, 30, 40] [1, 3])).getD 1 [] = [20, 30, 40] ∧
    (TextEmbeddingModelHandler.postprocess
      (Prediction.mk ([] : List Nat) [0])).getD 0 [] = [] ∧
    TextEmbeddingModelHandler.postprocess (Prediction.mk ([] : List Nat) [0]) =
      [[]] :=
  ⟨Eq.trans ((postprocess_regroups [10, 20, 30, 40] [1, 3] (by decide)).2 1
      (by decide)).1 (by decide),
   ((postprocess_regroups ([] : List Nat) [0] (by decide)).2 0
      (by decide)).2.2 (by decide),
   by decide⟩

/-- C1: regrouping is a left inverse of flattening.  For any request
sequence accepted by the `preprocess` loop and any vector batch with one
vector per flattened text item, `postprocess` returns one group per request
in request order; group `i` has exactly as many vectors as request `i`
contributed text items, namely the contiguous slice of the batch at the
positions of that request's items. -/
theorem regroup_left_inverse_of_flatten {α : Type} (requests : List Request)
    (flat : List PyVal) (sizes : List Nat) (vecs : List α)
    (hpre : TextEmbeddingModelHandler.preprocessLoop requests =
      Except.ok (flat, sizes))
    (hlen : vecs.length = flat.length) :
    (TextEmbeddingModelHandler.postprocess (Prediction.mk vecs sizes)).length =
      requests.length ∧
    ∃ itemss, requestItemsAll requests = Except.ok itemss ∧
      sizes = itemss.map List.length ∧
      ∀ i, i < requests.length →
        ((TextEmbeddingModelHandler.postprocess
            (Prediction.mk vecs sizes)).getD i []).length =
          (itemss.getD i []).length ∧
        (TextEmbeddingModelHandler.postprocess
            (Prediction.mk vecs sizes)).getD i [] =
          (vecs.drop ((sizes.take i).sum)).take (sizes.getD i 0) := by
  rw [preprocessLoop_eq] at hpre
  cases ha : requestItemsAll requests with
  | error e => rw [ha] at hpre; cases hpre
  | ok itemss =>
    rw [ha] at hpre
    cases hpre
    have hlenitems : itemss.length = requests.length :=
      requestItemsAll_length requests itemss ha
    have hsum : (itemss.map List.length).sum = vecs.length := by
      rw [hlen, List.length_flatten]
    constructor
    · rw [postprocess_eq_regroupAux, regroupAux_length, List.length_map,
        hlenitems]
    · refine ⟨itemss, rfl, rfl, ?_⟩
      intro i hi
      have hi2 : i < (itemss.map List.length).length := by
        rw [List.length_map, hlenitems]; exact hi
      have hgetD : (TextEmbeddingModelHandler.postprocess
          (Prediction.mk vecs (itemss.map List.length))).getD i [] =
          (vecs.drop (((itemss.map List.length).take i).sum)).take
            ((itemss.map List.length).getD i 0) := by
        rw [postprocess_eq_regroupAux, regroupAux_getD _ _ 0 i hi2,
          Nat.zero_add]
      refine ⟨?_, hgetD⟩
      rw [hgetD, List.length_take, List.length_drop]
      have hle := take_sum_add_getD_le (itemss.map List.length) i hi2
      rw [getD_map_length itemss i (by rw [hlenitems]; exact hi)] at hle ⊢
      exact Nat.min_eq_left (by omega)

/-- Witness for C1: the specification's two-request example regroups four
vectors into one group per request, the second being the three vectors at
its items' positions. -/
theorem regroup_left_inverse_of_flatten_witness :
    (TextEmbeddingModelHandler.postprocess
      (Prediction.mk [10, 20, 30, 40] [1, 3])).length = 2 ∧
    (TextEmbeddingModelHandler.postprocess
      (Prediction.mk [10, 20, 30, 40] [1, 3])).getD 1 [] = [20, 30, 40] := by
  have h := regroup_left_inverse_of_flatten
    [Request.mk (PyVal.pystr "hello world"),
     Request.mk (PyVal.pylist [PyVal.pystr "a", PyVal.pystr "b", PyVal.pystr "c"])]
    [PyVal.pystr "hello world", PyVal.pystr "a", PyVal.pystr "b", PyVal.pystr "c"]
    [1, 3] ([10, 20, 30, 40] : List Nat) rfl rfl
  refine ⟨h.1, ?_⟩
  obtain ⟨itemss, hall, hsizes, hslice⟩ := h.2
  exact ((hslice 1 (by decide)).2).trans (by decide)

/-! ### Error propagation out of `preprocess` -/

theorem tokenizerEncode_err (xs : List PyVal)
    (h : ∃ x ∈ xs, isPyStr x = false) : isErr (tokenizerEncode xs) = true := by
  induction xs with
  | nil => obtain ⟨x, hx, _⟩ := h; simp at hx
  | cons y ys ih =>
    obtain ⟨x, hx, hxs⟩ := h
    cases y with
    | pystr s =>
      rcases List.mem_cons.mp hx with h1 | h1
      · rw [h1] at hxs; simp [isPyStr] at hxs
      · have herr := ih ⟨x, h1, hxs⟩
        rw [tokenizerEncode.eq_def]
        simp only []
        cases ht : tokenizerEncode ys with
        | error e => rfl
        | ok rest => rw [ht] at herr; cases herr
    | pyint n => rfl
    | pyfloat m e => rfl
    | pybool b => rfl
    | pynone => rfl
    | pylist l => rfl
    | pydict kvs => rfl
    | bytes bs => rfl

theorem requestItemsAll_ok_mem (reqs : List Request) :
    ∀ itemss, requestItemsAll reqs = Except.ok itemss →
      ∀ r ∈ reqs, ∃ items ∈ itemss, requestItems r = Except.ok items := by
  induction reqs with
  | nil => intro itemss _ r hr; simp at hr
  | cons q qs ih =>
    intro itemss hall r hr
    rw [requestItemsAll.eq_def] at hall
    simp only [] at hall
    cases hq : requestItems q with
    | error e => rw [hq] at hall; cases hall
    | ok items =>
      rw [hq] at hall
      cases ha2 : requestItemsAll qs with
      | error e => rw [ha2] at hall; cases hall
      | ok rest =>
        rw [ha2] at hall
        cases hall
        rcases List.mem_cons.mp hr with h1 | h1
        · rw [h1]
          exact ⟨items, List.mem_cons_self items rest, hq⟩
        · obtain ⟨its, hits, hr2⟩ := ih rest ha2 r h1
          exact ⟨its, List.mem_cons_of_mem items hits, hr2⟩

theorem badByteBody_cases (b : PyVal) (h : badByteBody b = true) :
    isErr (TextEmbeddingModelHandler.decodeRequestBody b) = true ∨
    ∃ xs, TextEmbeddingModelHandler.decodeRequestBody b =
        Except.ok (PyVal.pylist xs) ∧
      ∃ x ∈ xs, isPyStr x = false := by
  cases b with
  | bytes bs =>
    rw [badByteBody.eq_def] at h
    simp only [] at h
    cases hu : utf8Decode bs with
    | none =>
      left
      simp [TextEmbeddingModelHandler.decodeRequestBody, hu, isErr]
    | some s =>
      rw [hu] at h
      simp only [] at h
      cases hj : jsonLoads s with
      | error e =>
        left
        simp [TextEmbeddingModelHandler.decodeRequestBody, hu, hj, isErr]
      | ok v =>
        rw [hj] at h
        cases v with
        | pylist xs =>
          right
          refine ⟨xs, by simp [TextEmbeddingModelHandler.decodeRequestBody, hu, hj], ?_⟩
          obtain ⟨x, hx, hnx⟩ := List.any_eq_true.mp h
          exact ⟨x, hx, by simpa using hnx⟩
        | pystr s2 => exact Bool.noConfusion h
        | pyint n => exact Bool.noConfusion h
        | pyfloat m e => exact Bool.noConfusion h
        | pybool b2 => exact Bool.noConfusion h
        | pynone => exact Bool.noConfusion h
        | pydict kvs => exact Bool.noConfusion h
        | bytes bs2 => exact Bool.noConfusion h
  | pystr s => exact Bool.noConfusion h
  | pyint n => exact Bool.noConfusion h
  | pyfloat m e => exact Bool.noConfusion h
  | pybool b2 => exact Bool.noConfusion h
  | pynone => exact Bool.noConfusion h
  | pylist xs => exact Bool.noConfusion h
  | pydict kvs => exact Bool.noConfusion h

/-- C5: a request whose byte-buffer body is malformed UTF-8, invalid JSON,
or a JSON array with a non-string element makes `preprocess` surface an
uncaught error (from the decoding loop in the first two cases, from the
tokenizer call on the flattened batch in the third) instead of silently
absorbing the bad input. -/
theorem bad_byte_body_preprocess_errors (requests : List Request)
    (h : ∃ r ∈ requests, badByteBody r.body = true) :
    isErr (TextEmbeddingModelHandler.preprocess requests) = true := by
  obtain ⟨r, hr, hbad⟩ := h
  unfold TextEmbeddingModelHandler.preprocess
  rw [preprocessLoop_eq]
  cases ha : requestItemsAll requests with
  | error e => rfl
  | ok itemss =>
    simp only []
    obtain ⟨items, hitems, hri⟩ := requestItemsAll_ok_mem requests itemss ha r hr
    rcases badByteBody_cases r.body hbad with hdec | ⟨xs, hdec, x, hx, hxs⟩
    · unfold requestItems at hri
      cases hd : TextEmbeddingModelHandler.decodeRequestBody r.body with
      | error e => rw [hd] at hri; cases hri
      | ok v => rw [hd] at hdec; cases hdec
    · unfold requestItems at hri
      rw [hdec] at hri
      cases hri
      have herr := tokenizerEncode_err itemss.flatten
        ⟨x, List.mem_flatten.mpr ⟨items, hitems, hx⟩, hxs⟩
      cases ht : tokenizerEncode itemss.flatten with
      | error e => rfl
      | ok sents => rw [ht] at herr; cases herr

/-- Witness for C5: the byte buffer holding the UTF-8 text of the JSON
array `["a",1]` — whose second element is not a string — makes `preprocess`
error. -/
theorem bad_byte_body_preprocess_errors_witness :
    isErr (TextEmbeddingModelHandler.preprocess
      [Request.mk (PyVal.bytes [91, 34, 97, 34, 44, 49, 93])]) = true :=
  bad_byte_body_preprocess_errors
    [Request.mk (PyVal.bytes [91, 34, 97, 34, 44, 49, 93])]
    ⟨Request.mk (PyVal.bytes [91, 34, 97, 34, 44, 49, 93]),
     List.mem_cons_self _ _, rfl⟩

/-! ### `postResult` -/

theorem postResultAux_eq (gs : List (List PyVal)) :
    ∀ outputs, SparseEncodingModelHandler.postResult.postResultAux gs outputs =
      match postResultSpec gs with
      | Except.error err => Except.error err
      | Except.ok l => Except.ok (outputs ++ l) := by
  induction gs with
  | nil =>
    intro outputs
    simp [SparseEncodingModelHandler.postResult.postResultAux, postResultSpec]
  | cons r rest ih =>
    intro outputs
    rw [SparseEncodingModelHandler.postResult.postResultAux.eq_def,
      postResultSpec.eq_def]
    simp only []
    have hrec : pyDumpsString (PyVal.pydict
        [("name", PyVal.pystr "sentence_embedding"),
         ("data_type", PyVal.pystr "FLOAT32"),
         ("shape", PyVal.pyint (Int.ofNat r.length)),
         ("data", PyVal.pylist r)]) = recordDump r := rfl
    rw [hrec]
    cases hd : recordDump r with
    | error e => rfl
    | ok s =>
      simp only []
      rw [ih]
      cases hs : postResultSpec rest with
      | error e => rfl
      | ok tail => simp [List.append_assoc]

/-- C7 (amended): `postResult` produces one JSON-encoded record per input
group, in order, of the form `{name: "sentence_embedding", data_type:
"FLOAT32", shape: <number of vectors in the group>, data: <the group's
vectors>}` — the `shape` field is `len(result)`, the group's length, not
the embedding vector's length. -/
theorem postResult_one_record_per_group :
    (∀ gs : List (List PyVal),
      SparseEncodingModelHandler.postResult gs = postResultSpec gs) ∧
    SparseEncodingModelHandler.postResult
        [[PyVal.pylist [PyVal.pyint 1, PyVal.pyint 2, PyVal.pyint 3],
          PyVal.pylist [PyVal.pyint 4, PyVal.pyint 5, PyVal.pyint 6]]] =
      Except.ok
        ["\x7b\"name\": \"sentence_embedding\", \"data_type\": \"FLOAT32\", \"shape\": 2, \"data\": [[1, 2, 3], [4, 5, 6]]\x7d"] := by
  constructor
  · intro gs
    unfold SparseEncodingModelHandler.postResult
    rw [postResultAux_eq]
    cases postResultSpec gs with
    | error e => rfl
    | ok l => simp
  · rfl

/-- Counterexample to C7 as stated: for the single group holding two
vectors of length 3, the record's `shape` field is 2 (the group's length),
not 3 (the vector's length) as the claim asserts, so the output differs
from the claimed record at this input. -/
theorem postResult_shape_counterexample :
    SparseEncodingModelHandler.postResult
        [[PyVal.pylist [PyVal.pyint 1, PyVal.pyint 2, PyVal.pyint 3],
          PyVal.pylist [PyVal.pyint 4, PyVal.pyint 5, PyVal.pyint 6]]] =
      Except.ok
        ["\x7b\"name\": \"sentence_embedding\", \"data_type\": \"FLOAT32\", \"shape\": 2, \"data\": [[1, 2, 3], [4, 5, 6]]\x7d"] ∧
    SparseEncodingModelHandler.postResult
        [[PyVal.pylist [PyVal.pyint 1, PyVal.pyint 2, PyVal.pyint 3],
          PyVal.pylist [PyVal.pyint 4, PyVal.pyint 5, PyVal.pyint 6]]] ≠
      Except.ok
        ["\x7b\"name\": \"sentence_embedding\", \"data_type\": \"FLOAT32\", \"shape\": 3, \"data\": [[1, 2, 3], [4, 5, 6]]\x7d"] := by
  refine ⟨rfl, fun h => ?_⟩
  rw [show SparseEncodingModelHandler.postResult
        [[PyVal.pylist [PyVal.pyint 1, PyVal.pyint 2, PyVal.pyint 3],
          PyVal.pylist [PyVal.pyint 4, PyVal.pyint 5, PyVal.pyint 6]]] =
      Except.ok
        ["\x7b\"name\": \"sentence_embedding\", \"data_type\": \"FLOAT32\", \"shape\": 2, \"data\": [[1, 2, 3], [4, 5, 6]]\x7d"]
    from rfl] at h
  simp at h

/-! ### Round trip of `json.dumps` and `json.loads` on lists of strings -/

theorem hexVal_toHexDigit (x : Nat) (h : x < 16) :
    hexVal (toHexDigit x) = some x := by
  interval_cases x <;> decide

theorem hex4Val_uEscDigits (n : Nat) (h : n < 0x10000) :
    hex4Val (toHexDigit (n / 0x1000 % 16)) (toHexDigit (n / 0x100 % 16))
      (toHexDigit (n / 0x10 % 16)) (toHexDigit (n % 16)) = some n := by
  unfold hex4Val
  rw [hexVal_toHexDigit _ (by omega), hexVal_toHexDigit _ (by omega),
    hexVal_toHexDigit _ (by omega), hexVal_toHexDigit _ (by omega)]
  simp only []
  congr 1
  omega

theorem parseEscape_short (e d : Char) (he : escCode e = some d)
    (hu : ¬ e = 'u') (t : List Char) :
    parseEscape (e :: t) = Except.ok (d, t) := by
  rw [parseEscape.eq_def]
  simp only []
  rw [if_neg hu, he]

theorem parseEscape_uEsc (n : Nat) (hn : n < 0x10000)
    (hs : n < 0xd800 ∨ 0xdfff < n) (t : List Char) :
    parseEscape ('u' :: (uEscDigits n ++ t)) = Except.ok (Char.ofNat n, t) := by
  simp only [uEscDigits, List.cons_append, List.nil_append]
  rw [parseEscape.eq_def]
  simp only []
  rw [if_true, hex4Val_uEscDigits n hn]
  simp only []
  rw [if_pos hs]

theorem parseLowSurrogate_uEsc (hi y : Nat) (hy : y < 0x10000)
    (hr : 0xdc00 ≤ y ∧ y ≤ 0xdfff) (t : List Char) :
    parseLowSurrogate hi ('\\' :: 'u' :: (uEscDigits y ++ t)) =
      Except.ok (Char.ofNat (0x10000 + (hi - 0xd800) * 0x400 + (y - 0xdc00)), t) := by
  simp only [uEscDigits, List.cons_append, List.nil_append]
  rw [parseLowSurrogate.eq_def]
  simp only []
  rw [if_pos (⟨trivial, trivial⟩ : True ∧ True), hex4Val_uEscDigits y hy]
  simp only []
  rw [if_pos hr]

theorem parseEscape_highSurrogate (x : Nat) (hx1 : 0xd800 ≤ x)
    (hx2 : x < 0xdc00) (rest : List Char) :
    parseEscape ('u' :: (uEscDigits x ++ rest)) = parseLowSurrogate x rest := by
  simp only [uEscDigits, List.cons_append, List.nil_append]
  rw [parseEscape.eq_def]
  simp only []
  rw [if_true, hex4Val_uEscDigits x (by omega)]
  simp only []
  rw [if_neg (by omega : ¬ (x < 0xd800 ∨ 0xdfff < x)), if_pos hx2]

theorem parseEscape_surrogatePair (n : Nat) (hlo : 0x10000 ≤ n)
    (hhi : n ≤ 0x10ffff) (t : List Char) :
    parseEscape ('u' :: (uEscDigits (0xd800 + (n - 0x10000) / 0x400) ++
        ('\\' :: 'u' :: (uEscDigits (0xdc00 + (n - 0x10000) % 0x400) ++ t)))) =
      Except.ok (Char.ofNat n, t) := by
  rw [parseEscape_highSurrogate _ (by omega) (by omega),
    parseLowSurrogate_uEsc _ _ (by omega) (by omega)]
  have harith : 0x10000 + (0xd800 + (n - 0x10000) / 0x400 - 0xd800) * 0x400 +
      (0xdc00 + (n - 0x10000) % 0x400 - 0xdc00) = n := by omega
  rw [harith]

theorem parseStringBodyAux_quote (f : Nat) (t : List Char) :
    parseStringBodyAux (f + 1) ('"' :: t) = Except.ok ([], t) := by
  rw [parseStringBodyAux.eq_def]
  simp

theorem parseStringBodyAux_plain (f : Nat) (c : Char) (t : List Char)
    (h1 : ¬ c = '"') (h2 : ¬ c = '\\') (h3 : ¬ c.toNat < 0x20) :
    parseStringBodyAux (f + 1) (c :: t) =
      (parseStringBodyAux f t).map (fun p => (c :: p.1, p.2)) := by
  rw [parseStringBodyAux.eq_def]
  simp only []
  rw [if_neg h1, if_neg h2, if_neg h3]
  cases parseStringBodyAux f t <;> rfl

theorem parseStringBodyAux_escape (f : Nat) (d : Char) (t t2 : List Char)
    (h : parseEscape t = Except.ok (d, t2)) :
    parseStringBodyAux (f + 1) ('\\' :: t) =
      (parseStringBodyAux f t2).map (fun p => (d :: p.1, p.2)) := by
  rw [parseStringBodyAux.eq_def]
  simp only []
  rw [if_true, h]
  simp only []
  cases parseStringBodyAux f t2 <;> rfl

theorem parseStringBodyAux_escapeChars (cs : List Char) :
    ∀ (f : Nat) (rest : List Char),
      parseStringBodyAux (f + cs.length + 1)
        (cs.flatMap escapeChar ++ '"' :: rest) = Except.ok (cs, rest) := by
  induction cs with
  | nil =>
    intro f rest
    simp only [List.flatMap_nil, List.nil_append, List.length_nil, Nat.add_zero]
    exact parseStringBodyAux_quote f rest
  | cons c cs ih =>
    intro f rest
    rw [List.flatMap_cons, List.append_assoc]
    have hlen : f + (c :: cs).length + 1 = (f + cs.length + 1) + 1 := by
      simp [List.length_cons]
      omega
    rw [hlen]
    obtain ⟨hv, hsur⟩ := char_toNat_facts c
    by_cases b1 : c = '"'
    · subst b1
      rw [show escapeChar '"' = ['\\', '"'] from rfl, List.cons_append,
        List.cons_append, List.nil_append,
        parseStringBodyAux_escape _ _ _ _ (parseEscape_short '"' '"' rfl (by decide) _),
        ih f rest]
      rfl
    by_cases b2 : c = '\\'
    · subst b2
      rw [show escapeChar '\\' = ['\\', '\\'] from rfl, List.cons_append,
        List.cons_append, List.nil_append,
        parseStringBodyAux_escape _ _ _ _ (parseEscape_short '\\' '\\' rfl (by decide) _),
        ih f rest]
      rfl
    by_cases b3 : c = Char.ofNat 8
    · subst b3
      rw [show escapeChar (Char.ofNat 8) = ['\\', 'b'] from rfl, List.cons_append,
        List.cons_append, List.nil_append,
        parseStringBodyAux_escape _ _ _ _
          (parseEscape_short 'b' (Char.ofNat 8) rfl (by decide) _),
        ih f rest]
      rfl
    by_cases b4 : c = Char.ofNat 9
    · subst b4
      rw [show escapeChar (Char.ofNat 9) = ['\\', 't'] from rfl, List.cons_append,
        List.cons_append, List.nil_append,
        parseStringBodyAux_escape _ _ _ _
          (parseEscape_short 't' (Char.ofNat 9) rfl (by decide) _),
        ih f rest]
      rfl
    by_cases b5 : c = Char.ofNat 10
    · subst b5
      rw [show escapeChar (Char.ofNat 10) = ['\\', 'n'] from rfl, List.cons_append,
        List.cons_append, List.nil_append,
        parseStringBodyAux_escape _ _ _ _
          (parseEscape_short 'n' (Char.ofNat 10) rfl (by decide) _),
        ih f rest]
      rfl
    by_cases b6 : c = Char.ofNat 12
    · subst b6
      rw [show escapeChar (Char.ofNat 12) = ['\\', 'f'] from rfl, List.cons_append,
        List.cons_append, List.nil_append,
        parseStringBodyAux_escape _ _ _ _
          (parseEscape_short 'f' (Char.ofNat 12) rfl (by decide) _),
        ih f rest]
      rfl
    by_cases b7 : c = Char.ofNat 13
    · subst b7
      rw [show escapeChar (Char.ofNat 13) = ['\\', 'r'] from rfl, List.cons_append,
        List.cons_append, List.nil_append,
        parseStringBodyAux_escape _ _ _ _
          (parseEscape_short 'r' (Char.ofNat 13) rfl (by decide) _),
        ih f rest]
      rfl
    by_cases b8 : 0x20 ≤ c.toNat ∧ c.toNat < 0x7f
    · have he : escapeChar c = [c] := by
        simp only [escapeChar]
        rw [if_neg b1, if_neg b2, if_neg b3, if_neg b4, if_neg b5, if_neg b6,
          if_neg b7, if_pos b8]
      rw [he, List.cons_append, List.nil_append,
        parseStringBodyAux_plain _ c _ b1 b2 (by omega), ih f rest]
      rfl
    by_cases b9 : c.toNat < 0x10000
    · have he : escapeChar c = uEsc c.toNat := by
        simp only [escapeChar]
        rw [if_neg b1, if_neg b2, if_neg b3, if_neg b4, if_neg b5, if_neg b6,
          if_neg b7, if_neg b8, if_pos b9]
      rw [he, show ∀ t : List Char, uEsc c.toNat ++ t =
          '\\' :: ('u' :: (uEscDigits c.toNat ++ t)) from fun t => rfl,
        parseStringBodyAux_escape _ _ _ _
          (parseEscape_uEsc c.toNat b9 (by omega) _),
        Char.ofNat_toNat, ih f rest]
      rfl
    · have he : escapeChar c = uEsc (0xd800 + (c.toNat - 0x10000) / 0x400) ++
          uEsc (0xdc00 + (c.toNat - 0x10000) % 0x400) := by
        simp only [escapeChar]
        rw [if_neg b1, if_neg b2, if_neg b3, if_neg b4, if_neg b5, if_neg b6,
          if_neg b7, if_neg b8, if_neg b9]
      rw [he, show ∀ t : List Char,
          (uEsc (0xd800 + (c.toNat - 0x10000) / 0x400) ++
            uEsc (0xdc00 + (c.toNat - 0x10000) % 0x400)) ++ t =
          '\\' :: ('u' :: (uEscDigits (0xd800 + (c.toNat - 0x10000) / 0x400) ++
            ('\\' :: 'u' :: (uEscDigits (0xdc00 + (c.toNat - 0x10000) % 0x400) ++ t))))
          from fun t => by simp [uEsc],
        parseStringBodyAux_escape _ _ _ _
          (parseEscape_surrogatePair c.toNat (by omega) (by omega) _),
        Char.ofNat_toNat, ih f rest]
      rfl

theorem escapeChar_length_pos (c : Char) : 1 ≤ (escapeChar c).length := by
  unfold escapeChar
  repeat' split
  all_goals simp [uEsc, uEscDigits]

theorem flatMap_escapeChar_length (cs : List Char) :
    cs.length ≤ (cs.flatMap escapeChar).length := by
  induction cs with
  | nil => simp
  | cons c cs ih =>
    rw [List.flatMap_cons, List.length_append, List.length_cons]
    have := escapeChar_length_pos c
    omega

theorem parseStringBody_escapeChars (cs rest : List Char) :
    parseStringBody (cs.flatMap escapeChar ++ '"' :: rest) =
      Except.ok (cs, rest) := by
  unfold parseStringBody
  have hlen : cs.length ≤ (cs.flatMap escapeChar ++ '"' :: rest).length := by
    rw [List.length_append]
    have := flatMap_escapeChar_length cs
    omega
  have hfuel : (cs.flatMap escapeChar ++ '"' :: rest).length + 1 =
      ((cs.flatMap escapeChar ++ '"' :: rest).length - cs.length) +
        cs.length + 1 := by omega
  rw [hfuel, parseStringBodyAux_escapeChars]

theorem skipWs_cons_not_ws (c : Char) (l : List Char) (h : isJsonWs c = false) :
    skipWs (c :: l) = c :: l := by
  rw [skipWs.eq_def]
  simp [h]

theorem skipWs_cons_ws (c : Char) (l : List Char) (h : isJsonWs c = true) :
    skipWs (c :: l) = skipWs l := by
  rw [skipWs.eq_def]
  simp [h]

theorem parseValue_string (fuel : Nat) (s : String) (cs rest : List Char)
    (hskip : skipWs cs = dumpStringChars s ++ rest) :
    parseValue (fuel + 1) cs = Except.ok (PyVal.pystr s, rest) := by
  rw [parseValue.eq_def]
  simp only []
  rw [hskip, show dumpStringChars s ++ rest =
      '"' :: (s.data.flatMap escapeChar ++ ('"' :: rest)) from by
    simp [dumpStringChars]]
  simp only []
  rw [if_true, parseStringBody_escapeChars]
  rfl

theorem skipWs_dumpString (s : String) (rest : List Char) :
    skipWs (dumpStringChars s ++ rest) = dumpStringChars s ++ rest := by
  rw [show dumpStringChars s ++ rest =
      '"' :: (s.data.flatMap escapeChar ++ ('"' :: rest)) from by
    simp [dumpStringChars]]
  exact skipWs_cons_not_ws _ _ (by decide)

theorem parseArrayTail_dumpsTail (L : List String) :
    ∀ (f : Nat) (rest : List Char),
      parseArrayTail (f + L.length + 1) (dumpsTailChars L ++ rest) =
        Except.ok (L.map PyVal.pystr, rest) := by
  induction L with
  | nil =>
    intro f rest
    simp only [dumpsTailChars, List.cons_append, List.nil_append,
      List.length_nil, Nat.add_zero]
    rw [parseArrayTail.eq_def]
    simp only []
    rw [skipWs_cons_not_ws _ _ (by decide)]
    simp only []
    rw [if_true]
    rfl
  | cons s L1 ihL =>
    intro f rest
    rw [show dumpsTailChars (s :: L1) =
        ',' :: ' ' :: (dumpStringChars s ++ dumpsTailChars L1) from rfl,
      List.cons_append, List.cons_append, List.append_assoc]
    have hlen : f + (s :: L1).length + 1 = (f + L1.length + 1) + 1 := by
      simp [List.length_cons]
      omega
    rw [hlen, parseArrayTail.eq_def]
    simp only []
    rw [skipWs_cons_not_ws _ _ (by decide)]
    simp only []
    have hskip : skipWs (' ' :: (dumpStringChars s ++ (dumpsTailChars L1 ++ rest))) =
        dumpStringChars s ++ (dumpsTailChars L1 ++ rest) := by
      rw [skipWs_cons_ws _ _ (by decide)]
      exact skipWs_dumpString s _
    rw [if_neg (by decide : ¬ (',' : Char) = ']'), if_true,
      parseValue_string (f + L1.length) s _ _ hskip]
    simp only []
    rw [ihL f rest]
    rfl

theorem parseValue_dumpsChars (L : List String) (f : Nat) (rest : List Char) :
    parseValue (f + L.length + 1) (dumpsChars L ++ rest) =
      Except.ok (PyVal.pylist (L.map PyVal.pystr), rest) := by
  cases L with
  | nil =>
    simp only [dumpsChars, List.cons_append, List.nil_append, List.length_nil,
      Nat.add_zero]
    rw [parseValue.eq_def]
    simp only []
    rw [skipWs_cons_not_ws _ _ (by decide)]
    simp only []
    rw [if_neg (by decide : ¬ ('[' : Char) = '"'), if_true,
      skipWs_cons_not_ws _ _ (by decide)]
    simp only []
    rw [if_true]
    rfl
  | cons s L1 =>
    rw [show dumpsChars (s :: L1) =
        '[' :: (dumpStringChars s ++ dumpsTailChars L1) from rfl,
      List.cons_append, List.append_assoc]
    have hlen : f + (s :: L1).length + 1 = (f + L1.length + 1) + 1 := by
      simp [List.length_cons]
      omega
    rw [hlen, parseValue.eq_def]
    simp only []
    rw [skipWs_cons_not_ws _ _ (by decide)]
    simp only []
    rw [if_neg (by decide : ¬ ('[' : Char) = '"'), if_true,
      show dumpStringChars s ++ (dumpsTailChars L1 ++ rest) =
        '"' :: (s.data.flatMap escapeChar ++ ('"' :: (dumpsTailChars L1 ++ rest)))
      from by simp [dumpStringChars],
      skipWs_cons_not_ws _ _ (by decide)]
    simp only []
    have hskip : skipWs ('"' :: (s.data.flatMap escapeChar ++
        ('"' :: (dumpsTailChars L1 ++ rest)))) =
        dumpStringChars s ++ (dumpsTailChars L1 ++ rest) := by
      rw [skipWs_cons_not_ws _ _ (by decide)]
      simp [dumpStringChars]
    rw [if_neg (by decide : ¬ ('"' : Char) = ']'),
      parseValue_string (f + L1.length) s _ _ hskip]
    simp only []
    rw [parseArrayTail_dumpsTail L1 f rest]
    rfl

theorem dumpsTailChars_length (L : List String) :
    L.length + 1 ≤ (dumpsTailChars L).length := by
  induction L with
  | nil => simp [dumpsTailChars]
  | cons s L ih =>
    simp only [dumpsTailChars, List.length_cons, List.length_append]
    omega

theorem dumpsChars_length (L : List String) :
    L.length + 1 ≤ (dumpsChars L).length := by
  cases L with
  | nil => simp [dumpsChars]
  | cons s L =>
    have := dumpsTailChars_length L
    simp only [dumpsChars, List.length_cons, List.length_append]
    omega

/-- Round trip: parsing the dumped JSON text of a list of strings yields
the corresponding Python list of strings. -/
theorem jsonLoads_jsonDumpsStrs (L : List String) :
    jsonLoads (jsonDumpsStrs L) = Except.ok (PyVal.pylist (L.map PyVal.pystr)) := by
  unfold jsonLoads jsonDumpsStrs
  rw [show (String.mk (dumpsChars L)).data = dumpsChars L from rfl,
    show (String.mk (dumpsChars L)).length = (dumpsChars L).length from rfl]
  have hge := dumpsChars_length L
  have hfuel : (dumpsChars L).length + 1 =
      ((dumpsChars L).length - L.length) + L.length + 1 := by omega
  have hv := parseValue_dumpsChars L ((dumpsChars L).length - L.length) []
  rw [List.append_nil] at hv
  rw [hfuel, hv]
  rfl

theorem preprocessLoop_singleton (r : Request) (items : List PyVal)
    (h : requestItems r = Except.ok items) :
    TextEmbeddingModelHandler.preprocessLoop [r] =
      Except.ok (items, [items.length]) := by
  rw [preprocessLoop_eq, requestItemsAll.eq_def]
  simp only []
  rw [h]
  simp [requestItemsAll]

/-- C6: a request whose body is the byte buffer holding the UTF-8 encoding
of the JSON text for a list of strings `L` decodes to exactly the Python
list `L`, and contributes to `preprocess` exactly what a request whose body
is the already-decoded list contributes; concretely, the bytes of
`["a", "b"]` behave like the plain list of the strings `a` and `b`. -/
theorem byte_body_equals_decoded_list_body (L : List String) :
    TextEmbeddingModelHandler.decodeRequestBody
        (PyVal.bytes (utf8Encode (jsonDumpsStrs L))) =
      Except.ok (PyVal.pylist (L.map PyVal.pystr)) ∧
    requestItems (Request.mk (PyVal.bytes (utf8Encode (jsonDumpsStrs L)))) =
      requestItems (Request.mk (PyVal.pylist (L.map PyVal.pystr))) ∧
    TextEmbeddingModelHandler.preprocessLoop
        [Request.mk (PyVal.bytes (utf8Encode (jsonDumpsStrs L)))] =
      TextEmbeddingModelHandler.preprocessLoop
        [Request.mk (PyVal.pylist (L.map PyVal.pystr))] ∧
    utf8Encode (jsonDumpsStrs ["a", "b"]) =
      [91, 34, 97, 34, 44, 32, 34, 98, 34, 93] ∧
    TextEmbeddingModelHandler.decodeRequestBody
        (PyVal.bytes [91, 34, 97, 34, 44, 32, 34, 98, 34, 93]) =
      Except.ok (PyVal.pylist [PyVal.pystr "a", PyVal.pystr "b"]) := by
  have hdec : TextEmbeddingModelHandler.decodeRequestBody
      (PyVal.bytes (utf8Encode (jsonDumpsStrs L))) =
      Except.ok (PyVal.pylist (L.map PyVal.pystr)) := by
    rw [TextEmbeddingModelHandler.decodeRequestBody.eq_def]
    simp only []
    rw [utf8Decode_encode]
    simp only []
    rw [jsonLoads_jsonDumpsStrs]
  have hitems : requestItems
      (Request.mk (PyVal.bytes (utf8Encode (jsonDumpsStrs L)))) =
      Except.ok (L.map PyVal.pystr) := by
    unfold requestItems
    rw [hdec]
  refine ⟨hdec, ?_, ?_, rfl, rfl⟩
  · exact hitems.trans rfl
  · exact (preprocessLoop_singleton _ _ hitems).trans
      (preprocessLoop_singleton (Request.mk (PyVal.pylist (L.map PyVal.pystr)))
        (L.map PyVal.pystr) rfl).symm
